import Mathlib

/-!
Shallow embedding of the routing engine of the finTech repository:
`routing/path_finder.py`, `routing/route_scoring.py`, and the candidate
scoring section of `api/main.py` (`compute_routes`).

Numeric edge attributes are modelled as rationals (`ℚ`); an absent
dictionary key is `Option.none`.  The parts of `api/main.py` where IEEE
non-finite values matter are modelled over an explicit `PyFloat` type
with `nan` / `inf` values.
-/

namespace Routing

/-- Edge attribute dictionary: the numeric keys read by the routing code.
An absent key is `none`. -/
structure EdgeAttrs where
  friction : Option ℚ
  fx_spread_bps : Option ℚ
  transfer_fee_percent : Option ℚ
  tax_rate_percent : Option ℚ
  settlement_time_days : Option ℚ
  total_cost_pct : Option ℚ
deriving DecidableEq, Repr

instance : Inhabited EdgeAttrs := ⟨⟨none, none, none, none, none, none⟩⟩

/-- A directed graph (`networkx.DiGraph`): node list and edge list with
attributes.  At most one edge per ordered pair is assumed, as in the data
model. -/
structure Graph where
  nodes : List String
  edges : List (String × String × EdgeAttrs)
deriving DecidableEq, Repr

/-- `G[u][v]` as a partial lookup: `none` when the edge is absent
(Python would raise `KeyError`). -/
def getEdge (G : Graph) (u v : String) : Option EdgeAttrs :=
  (G.edges.find? (fun e => e.1 == u && e.2.1 == v)).map (fun e => e.2.2)

/-- Attribute lookup totalised with the empty attribute dictionary; every
theorem below applies it only where the edge exists. -/
def edgeAttrs (G : Graph) (u v : String) : EdgeAttrs :=
  (getEdge G u v).getD default

/-- The §4.3 proxy used when `friction` is absent:
`fx_spread_bps/100 + transfer_fee_percent + tax_rate_percent/100`,
with `0.0` for each missing sub-attribute (from `path_total_friction`). -/
def proxyFriction (a : EdgeAttrs) : ℚ :=
  a.fx_spread_bps.getD 0 / 100 + a.transfer_fee_percent.getD 0 + a.tax_rate_percent.getD 0 / 100

/-- Per-edge resolved friction: the `friction` attribute when present,
otherwise the proxy (body of the loop of `path_total_friction`). -/
def resolvedFriction (a : EdgeAttrs) : ℚ :=
  match a.friction with
  | some f => f
  | none => proxyFriction a

/-- `zip(path[:-1], path[1:])`: the consecutive node pairs of a path. -/
def pathPairs (path : List String) : List (String × String) :=
  path.dropLast.zip path.tail

/-- `path_total_friction(G, path)`: sum of resolved friction across the
path's edges. -/
def path_total_friction (G : Graph) (path : List String) : ℚ :=
  ((pathPairs path).map (fun uv => resolvedFriction (edgeAttrs G uv.1 uv.2))).sum

/-- One entry of the `edges` list produced by `path_breakdown`. -/
structure EdgeInfo where
  src : String
  dst : String
  fx_spread_bps : ℚ
  transfer_fee_percent : ℚ
  tax_rate_percent : ℚ
  settlement_time_days : ℚ
  friction : ℚ
  cost_estimate : ℚ
deriving DecidableEq, Repr

/-- The dictionary returned by `path_breakdown`. -/
structure Breakdown where
  path : List String
  edges : List EdgeInfo
  total_cost : ℚ
  total_time : ℚ
  total_risk : ℚ
  hops : Int
deriving DecidableEq, Repr

/-- `path_breakdown(G, path)`: per-edge records plus accumulated totals;
`hops = max(0, len(path) - 1)`. -/
def path_breakdown (G : Graph) (path : List String) : Breakdown :=
  let edges_info := (pathPairs path).map (fun uv =>
    let attr := edgeAttrs G uv.1 uv.2
    { src := uv.1
      dst := uv.2
      fx_spread_bps := attr.fx_spread_bps.getD 0
      transfer_fee_percent := attr.transfer_fee_percent.getD 0
      tax_rate_percent := attr.tax_rate_percent.getD 0
      settlement_time_days := attr.settlement_time_days.getD 0
      friction := attr.friction.getD (path_total_friction G [uv.1, uv.2])
      cost_estimate := attr.fx_spread_bps.getD 0 / 100 + attr.transfer_fee_percent.getD 0
        + attr.tax_rate_percent.getD 0 / 100 : EdgeInfo })
  { path := path
    edges := edges_info
    total_cost := (edges_info.map (fun e => e.cost_estimate)).sum
    total_time := (edges_info.map (fun e => e.settlement_time_days)).sum
    total_risk := (edges_info.map (fun e => e.friction)).sum
    hops := max 0 ((path.length : Int) - 1) }

/-- Every consecutive pair of the list is an edge of `G` (the domain on
which the Python code runs without `KeyError`). -/
def edgesExist (G : Graph) (path : List String) : Prop :=
  List.Chain' (fun u v => (getEdge G u v).isSome = true) path

/-- Adjacency list of `u` in insertion order (`networkx` neighbor order). -/
def successors (G : Graph) (u : String) : List String :=
  (G.edges.filter (fun e => e.1 == u)).map (fun e => e.2.1)

/-- The `networkx` weight function for `weight="friction"`: the edge's
`friction` attribute, defaulting to `1` when absent. -/
def nxWeight (G : Graph) (u v : String) : ℚ :=
  (edgeAttrs G u v).friction.getD 1

/-- Total `networkx` weight of a path under `weight="friction"`. -/
def nxPathWeight (G : Graph) (p : List String) : ℚ :=
  ((pathPairs p).map (fun uv => nxWeight G uv.1 uv.2)).sum

/-- Depth-first enumeration of the simple paths from `u` to `t` that avoid
the already-visited nodes `acc` (reversed prefix) and use at most `fuel`
further edges; the `networkx` simple-path search order. -/
def simplePathsAux (G : Graph) (t : String) : Nat → String → List String → List (List String)
  | 0, u, acc => if u = t then [(u :: acc).reverse] else []
  | n + 1, u, acc =>
    if u = t then [(u :: acc).reverse]
    else ((successors G u).filter (fun v => decide (v ∉ u :: acc))).flatMap
      (fun v => simplePathsAux G t n v (u :: acc))

/-- Modelled from the library: `networkx.all_simple_paths(G, s, t, cutoff)`
generates every simple path with at most `cutoff` edges, in depth-first
order, and is empty when the source equals the target. -/
def all_simple_paths (G : Graph) (s t : String) (cutoff : Nat) : List (List String) :=
  if s = t then [] else simplePathsAux G t cutoff s []

/-- Total-friction comparison used to sort paths. -/
def frictionLe (G : Graph) (p q : List String) : Prop :=
  path_total_friction G p ≤ path_total_friction G q

instance (G : Graph) : DecidableRel (frictionLe G) :=
  fun _ _ => inferInstanceAs (Decidable (_ ≤ _))

instance (G : Graph) : IsTotal (List String) (frictionLe G) :=
  ⟨fun _ _ => le_total _ _⟩

instance (G : Graph) : IsTrans (List String) (frictionLe G) :=
  ⟨fun _ _ _ h₁ h₂ => le_trans h₁ h₂⟩

/-- `networkx` path comparison for `weight="friction"`. -/
def nxLe (G : Graph) (p q : List String) : Prop :=
  nxPathWeight G p ≤ nxPathWeight G q

instance (G : Graph) : DecidableRel (nxLe G) :=
  fun _ _ => inferInstanceAs (Decidable (_ ≤ _))

instance (G : Graph) : IsTotal (List String) (nxLe G) :=
  ⟨fun _ _ => le_total _ _⟩

instance (G : Graph) : IsTrans (List String) (nxLe G) :=
  ⟨fun _ _ _ h₁ h₂ => le_trans h₁ h₂⟩

/-- Modelled from the library: `networkx.shortest_simple_paths(G, s, t,
weight="friction")` (Yen's algorithm) yields the simple paths from `s` to
`t` in nondecreasing total weight, where a missing `friction` attribute
weighs `1`; it raises (`error`) when no path exists.  The generator yields
`[s]` when `s = t`.  `sspBase` is the underlying unsorted path
collection. -/
def sspBase (G : Graph) (s t : String) : List (List String) :=
  if s = t then [[s]] else simplePathsAux G t G.nodes.length s []

/-- See `sspBase`: the yield sequence of
`networkx.shortest_simple_paths(G, s, t, weight="friction")`. -/
def shortest_simple_paths (G : Graph) (s t : String) : Except Unit (List (List String)) :=
  let sorted := List.insertionSort (nxLe G) (sspBase G s t)
  if sorted.isEmpty then Except.error () else Except.ok sorted

/-- Body of `top_k_paths`, parameterised by the outcome of the weighted
shortest-path subroutine (`Except.error` models any exception from it). -/
def top_k_paths_with (G : Graph) (s t : String) (k maxHops : Nat)
    (primary : Except Unit (List (List String))) : List (List String) :=
  if s ∉ G.nodes ∨ t ∉ G.nodes then []
  else
    match primary with
    | Except.ok gen => (gen.filter (fun p => decide (p.length - 1 ≤ maxHops))).take k
    | Except.error _ =>
      (List.insertionSort (frictionLe G) (all_simple_paths G s t maxHops)).take k

/-- `top_k_paths(G, source, target, k, max_hops)`. -/
def top_k_paths (G : Graph) (s t : String) (k maxHops : Nat) : List (List String) :=
  top_k_paths_with G s t k maxHops (shortest_simple_paths G s t)

/-- `composite_score(breakdown, w_cost, w_time, w_risk)` from
`routing/route_scoring.py`: weights are normalised to sum to `1`, or
replaced by the default `(0.6, 0.2, 0.2)` when their sum is `≤ 0`. -/
def composite_score (breakdown : Breakdown) (w_cost w_time w_risk : ℚ) : ℚ :=
  let total_w := w_cost + w_time + w_risk
  let wc := if total_w ≤ 0 then (0.6 : ℚ) else w_cost / total_w
  let wt := if total_w ≤ 0 then (0.2 : ℚ) else w_time / total_w
  let wr := if total_w ≤ 0 then (0.2 : ℚ) else w_risk / total_w
  let cost_scale : ℚ := 1
  let time_scale : ℚ := 1
  let risk_scale : ℚ := 1
  wc * (breakdown.total_cost * cost_scale) + wt * (breakdown.total_time * time_scale)
    + wr * (breakdown.total_risk * risk_scale)

/-- A Python float value: finite rational, signed infinity, or NaN.
Overflow of finite arithmetic is not modelled. -/
inductive PyFloat where
  | nan : PyFloat
  | inf : PyFloat
  | ninf : PyFloat
  | fin : ℚ → PyFloat
deriving DecidableEq, Repr

namespace PyFloat

/-- IEEE multiplication on `PyFloat`. -/
def mul : PyFloat → PyFloat → PyFloat
  | nan, _ => nan
  | _, nan => nan
  | inf, inf => inf
  | inf, ninf => ninf
  | ninf, inf => ninf
  | ninf, ninf => inf
  | inf, fin q => if 0 < q then inf else if q < 0 then ninf else nan
  | fin q, inf => if 0 < q then inf else if q < 0 then ninf else nan
  | ninf, fin q => if 0 < q then ninf else if q < 0 then inf else nan
  | fin q, ninf => if 0 < q then ninf else if q < 0 then inf else nan
  | fin a, fin b => fin (a * b)

/-- IEEE addition on `PyFloat`. -/
def add : PyFloat → PyFloat → PyFloat
  | nan, _ => nan
  | _, nan => nan
  | inf, ninf => nan
  | ninf, inf => nan
  | inf, _ => inf
  | _, inf => inf
  | ninf, _ => ninf
  | _, ninf => ninf
  | fin a, fin b => fin (a + b)

/-- Python `x != y` on floats: NaN is unequal to everything, itself
included. -/
def pyNe : PyFloat → PyFloat → Bool
  | nan, _ => true
  | _, nan => true
  | inf, inf => false
  | ninf, ninf => false
  | fin a, fin b => decide (a ≠ b)
  | _, _ => true

/-- The value is neither NaN nor infinite. -/
def isFinite : PyFloat → Bool
  | fin _ => true
  | _ => false

end PyFloat

/-- A Python value as far as `_extract_numeric_score` inspects it:
a number, `None`, a list of node names, or a string-keyed dictionary. -/
inductive PyVal where
  | num : PyFloat → PyVal
  | noneV : PyVal
  | listV : List String → PyVal
  | dictV : List (String × PyVal) → PyVal

/-- Dictionary key lookup (`obj[k]` / `k in obj`). -/
def dictGet (es : List (String × PyVal)) (k : String) : Option PyVal :=
  (es.find? (fun e => e.1 == k)).map (fun e => e.2)

/-- Python `float(obj)`: succeeds only on numbers here (`None`, lists and
dictionaries raise `TypeError`). -/
def pyFloatOf : PyVal → Option PyFloat
  | PyVal.num x => some x
  | _ => none

/-- The key-probing loop of `_extract_numeric_score`: return the first
key present in the dictionary whose value converts to `float`. -/
def extractLoop (es : List (String × PyVal)) : List String → Option PyFloat
  | [] => none
  | k :: ks =>
    match dictGet es k with
    | some v =>
      match pyFloatOf v with
      | some x => some x
      | none => extractLoop es ks
    | none => extractLoop es ks

/-- `_extract_numeric_score(obj, fallback)` from `compute_routes` in
`api/main.py`: a number is returned directly; for a dictionary the keys
`score`, `composite`, `value`, `score_value` are probed, then
`meta.score`; otherwise `float(obj)` is attempted and the fallback is
returned on failure. -/
def extract_numeric_score (obj : PyVal) (fallback : PyFloat) : PyFloat :=
  match obj with
  | PyVal.num x => x
  | PyVal.dictV es =>
    match extractLoop es ["score", "composite", "value", "score_value"] with
    | some x => x
    | none =>
      match dictGet es "meta" with
      | some (PyVal.dictV mes) => ((dictGet mes "score").bind pyFloatOf).getD fallback
      | _ => fallback
  | v => (pyFloatOf v).getD fallback

/-- The dictionary built by `score_route_summary` in
`routing/route_scoring.py` when applied to the breakdown dictionary
`{"total_cost": tc, "total_time": tt, "total_risk": tr}` that
`compute_routes` passes it; `cs` is the value `composite_score` returned
(note the `"totqal_cost"` key typo of the source). -/
def score_route_summary_obj (tc tt tr cs : PyFloat) : PyVal :=
  PyVal.dictV [("path", PyVal.noneV), ("hops", PyVal.noneV),
    ("totqal_cost", PyVal.num tc), ("total_time", PyVal.num tt),
    ("total_risk", PyVal.num tr), ("composite_score", PyVal.num cs)]

/-- The score-normalisation step of `compute_routes` in `api/main.py` for
one candidate route: extract a numeric score from the
`score_route_summary` result (with the non-normalised weighted sum as
fallback), then replace a NaN result by that fallback.  `cs` is the raw
composite value, `wc`/`wt`/`wr` the request weights, `tc`/`tt`/`tr` the
accumulated totals. -/
def candidate_score (cs wc wt wr tc tt tr : PyFloat) : PyFloat :=
  let raw := score_route_summary_obj tc tt tr cs
  let fallback_numeric :=
    PyFloat.add (PyFloat.add (PyFloat.mul wc tc) (PyFloat.mul wt tt)) (PyFloat.mul wr tr)
  let composite_numeric := extract_numeric_score raw fallback_numeric
  if PyFloat.pyNe composite_numeric composite_numeric then fallback_numeric
  else composite_numeric

/-! Helper lemmas about the path enumeration. -/

theorem nodup_of_mem_simplePathsAux (G : Graph) (t : String) :
    ∀ (fuel : Nat) (u : String) (acc : List String) (p : List String),
      (u :: acc).Nodup → p ∈ simplePathsAux G t fuel u acc → p.Nodup := by
  intro fuel
  induction fuel with
  | zero =>
    intro u acc p hnd hp
    by_cases hut : u = t
    · simp only [simplePathsAux, if_pos hut, List.mem_singleton] at hp
      subst hp
      exact List.nodup_reverse.mpr hnd
    · simp [simplePathsAux, hut] at hp
  | succ n ih =>
    intro u acc p hnd hp
    by_cases hut : u = t
    · simp only [simplePathsAux, if_pos hut, List.mem_singleton] at hp
      subst hp
      exact List.nodup_reverse.mpr hnd
    · simp only [simplePathsAux, if_neg hut, List.mem_flatMap, List.mem_filter,
        decide_eq_true_eq] at hp
      obtain ⟨v, ⟨_, hv2⟩, hp⟩ := hp
      exact ih v (u :: acc) p (List.nodup_cons.mpr ⟨hv2, hnd⟩) hp

theorem length_of_mem_simplePathsAux (G : Graph) (t : String) :
    ∀ (fuel : Nat) (u : String) (acc : List String) (p : List String),
      p ∈ simplePathsAux G t fuel u acc → p.length ≤ fuel + acc.length + 1 := by
  intro fuel
  induction fuel with
  | zero =>
    intro u acc p hp
    by_cases hut : u = t
    · simp only [simplePathsAux, if_pos hut, List.mem_singleton] at hp
      subst hp
      simp
    · simp [simplePathsAux, hut] at hp
  | succ n ih =>
    intro u acc p hp
    by_cases hut : u = t
    · simp only [simplePathsAux, if_pos hut, List.mem_singleton] at hp
      subst hp
      simp only [List.length_reverse, List.length_cons]
      omega
    · simp only [simplePathsAux, if_neg hut, List.mem_flatMap, List.mem_filter,
        decide_eq_true_eq] at hp
      obtain ⟨v, _, hp⟩ := hp
      have := ih v (u :: acc) p hp
      simp only [List.length_cons] at this
      omega

theorem nodup_of_mem_sspBase {G : Graph} {s t : String} {p : List String}
    (hp : p ∈ sspBase G s t) : p.Nodup := by
  unfold sspBase at hp
  by_cases hst : s = t
  · simp only [if_pos hst, List.mem_singleton] at hp
    subst hp
    exact List.nodup_singleton s
  · exact nodup_of_mem_simplePathsAux G t G.nodes.length s [] p (List.nodup_singleton s)
      (by simpa [hst] using hp)

theorem nodup_of_mem_all_simple_paths {G : Graph} {s t : String} {cutoff : Nat}
    {p : List String} (hp : p ∈ all_simple_paths G s t cutoff) : p.Nodup := by
  unfold all_simple_paths at hp
  by_cases hst : s = t
  · simp [hst] at hp
  · exact nodup_of_mem_simplePathsAux G t cutoff s [] p (List.nodup_singleton s)
      (by simpa [hst] using hp)

theorem hops_of_mem_all_simple_paths {G : Graph} {s t : String} {cutoff : Nat}
    {p : List String} (hp : p ∈ all_simple_paths G s t cutoff) : p.length - 1 ≤ cutoff := by
  unfold all_simple_paths at hp
  by_cases hst : s = t
  · simp [hst] at hp
  · have := length_of_mem_simplePathsAux G t cutoff s [] p (by simpa [hst] using hp)
    simp only [List.length_nil] at this
    omega

theorem shortest_simple_paths_ok {G : Graph} {s t : String} {l : List (List String)}
    (h : shortest_simple_paths G s t = Except.ok l) :
    l = List.insertionSort (nxLe G) (sspBase G s t) := by
  simp only [shortest_simple_paths] at h
  by_cases he : (List.insertionSort (nxLe G) (sspBase G s t)).isEmpty
  · rw [if_pos he] at h
    cases h
  · rw [if_neg he] at h
    exact (Except.ok.inj h).symm

theorem nodup_of_ssp_ok {G : Graph} {s t : String} {l : List (List String)}
    (h : shortest_simple_paths G s t = Except.ok l) : ∀ p ∈ l, p.Nodup := by
  intro p hp
  rw [shortest_simple_paths_ok h] at hp
  exact nodup_of_mem_sspBase ((List.mem_insertionSort (nxLe G)).mp hp)

theorem sorted_of_ssp_ok {G : Graph} {s t : String} {l : List (List String)}
    (h : shortest_simple_paths G s t = Except.ok l) : l.Pairwise (nxLe G) := by
  rw [shortest_simple_paths_ok h]
  exact List.sorted_insertionSort (nxLe G) (sspBase G s t)

/-- Example graph: a direct edge `S → T` with `friction = 5`, and a
two-hop detour `S → X → T` whose edges carry no `friction` attribute but
a §4.3 proxy of `10` each (`fx_spread_bps = 1000`). -/
def exG1 : Graph :=
  ⟨["S", "X", "T"],
   [("S", "T", ⟨some 5, none, none, none, none, none⟩),
    ("S", "X", ⟨none, some 1000, none, none, none, none⟩),
    ("X", "T", ⟨none, some 1000, none, none, none, none⟩)]⟩

/-- C5: for every graph, source, destination, `k ≥ 0` and `maxHops ≥ 1`,
every path returned by `top_k_paths` is simple (no repeated node) and has
hop count at most `maxHops`, and the returned sequence has length at most
`k`. -/
theorem topk_paths_simple_bounded (G : Graph) (s t : String) (k maxHops : Nat)
    (_hm : 1 ≤ maxHops) :
    (∀ p ∈ top_k_paths G s t k maxHops, p.Nodup ∧ p.length - 1 ≤ maxHops) ∧
    (top_k_paths G s t k maxHops).length ≤ k := by
  unfold top_k_paths top_k_paths_with
  by_cases hmem : s ∉ G.nodes ∨ t ∉ G.nodes
  · rw [if_pos hmem]
    exact ⟨fun p hp => absurd hp (List.not_mem_nil p), by simp⟩
  · rw [if_neg hmem]
    cases hssp : shortest_simple_paths G s t with
    | ok gen =>
      constructor
      · intro p hp
        have hp' := List.mem_of_mem_take hp
        have hfil := List.mem_filter.mp hp'
        refine ⟨nodup_of_ssp_ok hssp p hfil.1, ?_⟩
        simpa using hfil.2
      · exact List.length_take_le k _
    | error e =>
      constructor
      · intro p hp
        have hp' := (List.mem_insertionSort _).mp (List.mem_of_mem_take hp)
        exact ⟨nodup_of_mem_all_simple_paths hp', hops_of_mem_all_simple_paths hp'⟩
      · exact List.length_take_le k _

/-- C5 witness. -/
theorem topk_paths_simple_bounded_witness :
    (∀ p ∈ top_k_paths exG1 "S" "T" 2 4, p.Nodup ∧ p.length - 1 ≤ 4) ∧
    (top_k_paths exG1 "S" "T" 2 4).length ≤ 2 :=
  topk_paths_simple_bounded exG1 "S" "T" 2 4 (by norm_num)

/-- C6: `top_k_paths` returns the empty sequence whenever the source or
the destination is not a node of the graph, and whenever `k = 0`, without
raising an error (the function is total). -/
theorem topk_paths_absent_or_zero (G : Graph) (s t : String) (k maxHops : Nat) :
    ((s ∉ G.nodes ∨ t ∉ G.nodes) → top_k_paths G s t k maxHops = []) ∧
    (k = 0 → top_k_paths G s t k maxHops = []) := by
  constructor
  · intro h
    unfold top_k_paths top_k_paths_with
    rw [if_pos h]
  · intro hk
    subst hk
    unfold top_k_paths top_k_paths_with
    by_cases h : s ∉ G.nodes ∨ t ∉ G.nodes
    · rw [if_pos h]
    · rw [if_neg h]
      cases shortest_simple_paths G s t <;> simp

/-- C6 witness. -/
theorem topk_paths_absent_or_zero_witness :
    top_k_paths exG1 "A" "T" 3 4 = [] ∧ top_k_paths exG1 "S" "T" 0 4 = [] :=
  ⟨(topk_paths_absent_or_zero exG1 "A" "T" 3 4).1 (Or.inl (by decide)),
   (topk_paths_absent_or_zero exG1 "S" "T" 0 4).2 rfl⟩

/-- C7: whenever the weighted shortest-path subroutine fails (any
`Except.error` outcome), `top_k_paths` recovers by exhaustively
enumerating the simple paths of hop count at most `maxHops`, sorting them
by total friction, and returning the first `k`; the result is
friction-sorted and an exhausted search space yields `min k n` paths
rather than an error. -/
theorem topk_fallback_recovery (G : Graph) (s t : String) (k maxHops : Nat)
    (hs : s ∈ G.nodes) (ht : t ∈ G.nodes) :
    top_k_paths_with G s t k maxHops (Except.error ()) =
      (List.insertionSort (frictionLe G) (all_simple_paths G s t maxHops)).take k ∧
    (top_k_paths_with G s t k maxHops (Except.error ())).Pairwise (frictionLe G) ∧
    (top_k_paths_with G s t k maxHops (Except.error ())).length =
      min k (all_simple_paths G s t maxHops).length := by
  have hcond : ¬ (s ∉ G.nodes ∨ t ∉ G.nodes) := by
    push_neg
    exact ⟨hs, ht⟩
  have heq : top_k_paths_with G s t k maxHops (Except.error ()) =
      (List.insertionSort (frictionLe G) (all_simple_paths G s t maxHops)).take k := by
    unfold top_k_paths_with
    rw [if_neg hcond]
  have hsort : (List.insertionSort (frictionLe G) (all_simple_paths G s t maxHops)).Pairwise
      (frictionLe G) :=
    List.sorted_insertionSort (frictionLe G) (all_simple_paths G s t maxHops)
  refine ⟨heq, ?_, ?_⟩
  · rw [heq]
    exact hsort.sublist (List.take_sublist k _)
  · rw [heq, List.length_take, List.length_insertionSort]

/-- C7 witness. -/
theorem topk_fallback_recovery_witness :
    top_k_paths_with exG1 "S" "T" 2 4 (Except.error ()) =
      (List.insertionSort (frictionLe exG1) (all_simple_paths exG1 "S" "T" 4)).take 2 ∧
    (top_k_paths_with exG1 "S" "T" 2 4 (Except.error ())).Pairwise (frictionLe exG1) ∧
    (top_k_paths_with exG1 "S" "T" 2 4 (Except.error ())).length =
      min 2 (all_simple_paths exG1 "S" "T" 4).length :=
  topk_fallback_recovery exG1 "S" "T" 2 4 (by decide) (by decide)

/-- C1 counterexample: on `exG1`, `top_k_paths` returns the two-hop path
(resolved friction `20`) before the direct path (resolved friction `5`),
because the primary search weighs a missing `friction` attribute as `1`,
not as the §4.3 proxy — so the output is not ordered ascending by
resolved total friction. -/
theorem topk_order_counterexample :
    top_k_paths exG1 "S" "T" 2 4 = [["S", "X", "T"], ["S", "T"]] ∧
    path_total_friction exG1 ["S", "X", "T"] = 20 ∧
    path_total_friction exG1 ["S", "T"] = 5 ∧
    ¬ (top_k_paths exG1 "S" "T" 2 4).Pairwise
        (fun p q => path_total_friction exG1 p ≤ path_total_friction exG1 q) := by
  have htop : top_k_paths exG1 "S" "T" 2 4 = [["S", "X", "T"], ["S", "T"]] := by
    simp [top_k_paths, top_k_paths_with, shortest_simple_paths, sspBase, simplePathsAux,
      successors, all_simple_paths, List.insertionSort, List.orderedInsert, nxLe, nxPathWeight,
      nxWeight, pathPairs, edgeAttrs, getEdge, exG1, List.find?]
    norm_num
    decide
  have h1 : path_total_friction exG1 ["S", "X", "T"] = 20 := by
    simp [path_total_friction, pathPairs, edgeAttrs, getEdge, exG1, List.find?,
      resolvedFriction, proxyFriction]
    norm_num
  have h2 : path_total_friction exG1 ["S", "T"] = 5 := by
    simp [path_total_friction, pathPairs, edgeAttrs, getEdge, exG1, List.find?,
      resolvedFriction, proxyFriction]
  refine ⟨htop, h1, h2, ?_⟩
  rw [htop]
  intro hp
  have hle := List.rel_of_pairwise_cons hp (List.mem_singleton.mpr rfl)
  rw [h1, h2] at hle
  norm_num at hle

/-- C1 amended: whenever the weighted shortest-path subroutine succeeds,
the sequence returned by `top_k_paths` is ordered ascending by each
path's total `networkx` weight, where the per-edge weight is the
`friction` attribute when present and `1` (not the §4.3 proxy) when
absent; equal-weight paths appear in the search's own order. -/
theorem topk_sorted_by_nx_weight (G : Graph) (s t : String) (k maxHops : Nat)
    (l : List (List String)) (h : shortest_simple_paths G s t = Except.ok l) :
    (top_k_paths G s t k maxHops).Pairwise (nxLe G) := by
  unfold top_k_paths top_k_paths_with
  by_cases hmem : s ∉ G.nodes ∨ t ∉ G.nodes
  · rw [if_pos hmem]
    exact List.Pairwise.nil
  · rw [if_neg hmem, h]
    have hsorted : l.Pairwise (nxLe G) := sorted_of_ssp_ok h
    exact (hsorted.sublist (List.filter_sublist l)).sublist (List.take_sublist k _)

/-- C1 amended witness. -/
theorem topk_sorted_by_nx_weight_witness :
    shortest_simple_paths exG1 "S" "T" = Except.ok [["S", "X", "T"], ["S", "T"]] ∧
    (top_k_paths exG1 "S" "T" 2 4).Pairwise (nxLe exG1) := by
  have hok : shortest_simple_paths exG1 "S" "T" = Except.ok [["S", "X", "T"], ["S", "T"]] := by
    simp [shortest_simple_paths, sspBase, simplePathsAux, successors, List.insertionSort,
      List.orderedInsert, nxLe, nxPathWeight, nxWeight, pathPairs, edgeAttrs, getEdge, exG1,
      List.find?]
    norm_num
    simp
  exact ⟨hok, topk_sorted_by_nx_weight exG1 "S" "T" 2 4 _ hok⟩

/-- Example graph for the breakdown claims: one edge `A → B` carrying a
`friction` attribute of `5` and nothing else (in particular no
`total_cost_pct`). -/
def exG2 : Graph :=
  ⟨["A", "B"], [("A", "B", ⟨some 5, none, none, none, none, none⟩)]⟩

/-- C2 counterexample: on the edge `A → B` of `exG2`, which lacks
`total_cost_pct`, `path_breakdown` resolves the cost to `0` (the proxy
formula over absent sub-attributes) while the resolved `friction` is `5`
— the resolved cost does not default to the resolved friction, and
`total_cost` sums the proxy costs, not the resolved frictions. -/
theorem breakdown_cost_counterexample :
    (edgeAttrs exG2 "A" "B").total_cost_pct = none ∧
    (path_breakdown exG2 ["A", "B"]).edges.map (fun e => e.cost_estimate) = [0] ∧
    (path_breakdown exG2 ["A", "B"]).edges.map (fun e => e.friction) = [5] ∧
    (path_breakdown exG2 ["A", "B"]).total_cost = 0 ∧
    (0 : ℚ) ≠ 5 := by
  refine ⟨by simp [edgeAttrs, getEdge, exG2, List.find?], ?_, ?_, ?_, by norm_num⟩ <;>
    simp [path_breakdown, pathPairs, edgeAttrs, getEdge, exG2, List.find?,
      path_total_friction, resolvedFriction, proxyFriction]

/-- C2 amended: in `path_breakdown` an edge's resolved cost is always the
proxy `fx_spread_bps/100 + transfer_fee_percent + tax_rate_percent/100`,
ignoring `total_cost_pct`; it coincides with the resolved `friction`
exactly when the `friction` attribute is absent, and `total_cost` is the
sum of these per-edge proxy costs. -/
theorem breakdown_cost_is_proxy (G : Graph) (path : List String)
    (_h : edgesExist G path) :
    (path_breakdown G path).edges.map (fun e => e.cost_estimate) =
      (pathPairs path).map (fun uv => proxyFriction (edgeAttrs G uv.1 uv.2)) ∧
    (path_breakdown G path).total_cost =
      ((pathPairs path).map (fun uv => proxyFriction (edgeAttrs G uv.1 uv.2))).sum ∧
    ∀ uv ∈ pathPairs path, (edgeAttrs G uv.1 uv.2).friction = none →
      proxyFriction (edgeAttrs G uv.1 uv.2) = resolvedFriction (edgeAttrs G uv.1 uv.2) := by
  refine ⟨?_, ?_, ?_⟩
  · simp only [path_breakdown, List.map_map]
    rfl
  · simp only [path_breakdown, List.map_map]
    rfl
  · intro uv _ hnone
    simp [resolvedFriction, hnone]

/-- C2 amended witness. -/
theorem breakdown_cost_is_proxy_witness :
    (path_breakdown exG1 ["S", "X", "T"]).edges.map (fun e => e.cost_estimate) =
      (pathPairs ["S", "X", "T"]).map (fun uv => proxyFriction (edgeAttrs exG1 uv.1 uv.2)) ∧
    (path_breakdown exG1 ["S", "X", "T"]).total_cost =
      ((pathPairs ["S", "X", "T"]).map (fun uv => proxyFriction (edgeAttrs exG1 uv.1 uv.2))).sum ∧
    ∀ uv ∈ pathPairs ["S", "X", "T"], (edgeAttrs exG1 uv.1 uv.2).friction = none →
      proxyFriction (edgeAttrs exG1 uv.1 uv.2) = resolvedFriction (edgeAttrs exG1 uv.1 uv.2) :=
  breakdown_cost_is_proxy exG1 ["S", "X", "T"]
    (by simp [edgesExist, getEdge, exG1, List.find?])

/-- C3: `total_risk` is the sum over consecutive edge pairs of the
resolved friction — the `friction` attribute when present, otherwise the
§4.3 proxy with `0.0` for absent sub-attributes; in particular an edge
with no `friction` and `fx_spread_bps = 200`,
`transfer_fee_percent = 1.5`, `tax_rate_percent = 10` resolves to `3.6`. -/
theorem breakdown_total_risk_resolved (G : Graph) (path : List String)
    (_h : edgesExist G path) :
    (path_breakdown G path).total_risk =
      ((pathPairs path).map (fun uv => resolvedFriction (edgeAttrs G uv.1 uv.2))).sum ∧
    resolvedFriction ⟨none, some 200, some (1.5 : ℚ), some 10, none, none⟩ = (3.6 : ℚ) := by
  constructor
  · simp only [path_breakdown, List.map_map]
    congr 1
    apply List.map_congr_left
    intro uv _
    show (edgeAttrs G uv.1 uv.2).friction.getD (path_total_friction G [uv.1, uv.2]) =
      resolvedFriction (edgeAttrs G uv.1 uv.2)
    cases hf : (edgeAttrs G uv.1 uv.2).friction with
    | some f => simp [resolvedFriction, hf]
    | none => simp [resolvedFriction, hf, path_total_friction, pathPairs]
  · norm_num [resolvedFriction, proxyFriction]

/-- C3 witness. -/
theorem breakdown_total_risk_resolved_witness :
    (path_breakdown exG1 ["S", "X", "T"]).total_risk =
      ((pathPairs ["S", "X", "T"]).map (fun uv => resolvedFriction (edgeAttrs exG1 uv.1 uv.2))).sum ∧
    resolvedFriction ⟨none, some 200, some (1.5 : ℚ), some 10, none, none⟩ = (3.6 : ℚ) :=
  breakdown_total_risk_resolved exG1 ["S", "X", "T"]
    (by simp [edgesExist, getEdge, exG1, List.find?])

/-- C10: `path_breakdown` is total on lists whose consecutive pairs are
edges, including lists of fewer than two nodes: `hops` equals
`max 0 (len - 1)` and the number of per-edge records, and an empty or
single-node list yields `hops = 0`, no edge records and zero totals. -/
theorem breakdown_hops_invariant (G : Graph) (path : List String)
    (_h : edgesExist G path) :
    (path_breakdown G path).hops = max 0 ((path.length : Int) - 1) ∧
    (path_breakdown G path).hops = ((path_breakdown G path).edges.length : Int) ∧
    (path.length < 2 →
      (path_breakdown G path).hops = 0 ∧ (path_breakdown G path).edges = [] ∧
      (path_breakdown G path).total_cost = 0 ∧ (path_breakdown G path).total_time = 0 ∧
      (path_breakdown G path).total_risk = 0) := by
  have hlen : (path_breakdown G path).edges.length = path.length - 1 := by
    simp [path_breakdown, pathPairs]
  refine ⟨rfl, ?_, ?_⟩
  · show max 0 ((path.length : Int) - 1) = _
    rw [hlen]
    cases path with
    | nil => simp
    | cons a l =>
      simp only [List.length_cons]
      push_cast
      omega
  · intro hlt
    rcases path with _ | ⟨a, _ | ⟨b, rest⟩⟩
    · exact ⟨rfl, rfl, rfl, rfl, rfl⟩
    · exact ⟨rfl, rfl, rfl, rfl, rfl⟩
    · simp only [List.length_cons] at hlt
      omega

/-- C10 witness (on the empty node list, whose breakdown is degenerate). -/
theorem breakdown_hops_invariant_witness :
    (path_breakdown exG1 ([] : List String)).hops = max 0 ((([] : List String).length : Int) - 1) ∧
    (path_breakdown exG1 ([] : List String)).hops =
      ((path_breakdown exG1 ([] : List String)).edges.length : Int) ∧
    (([] : List String).length < 2 →
      (path_breakdown exG1 ([] : List String)).hops = 0 ∧
      (path_breakdown exG1 ([] : List String)).edges = [] ∧
      (path_breakdown exG1 ([] : List String)).total_cost = 0 ∧
      (path_breakdown exG1 ([] : List String)).total_time = 0 ∧
      (path_breakdown exG1 ([] : List String)).total_risk = 0) :=
  breakdown_hops_invariant exG1 [] (by simp [edgesExist])

/-- A concrete breakdown for the scoring witnesses. -/
def exBd : Breakdown :=
  ⟨["A", "B"], [], 3, 2, 1, 1⟩

/-- C8: `composite_score` with the zero weight triple equals
`composite_score` with the default `(0.6, 0.2, 0.2)`; any triple whose
sum is `≤ 0` is replaced by the default, and any triple with positive sum
is normalised to sum to `1` before the weighted sum — no input is
rejected. -/
theorem composite_score_weight_repair (b : Breakdown) :
    composite_score b 0 0 0 = composite_score b 0.6 0.2 0.2 ∧
    (∀ w_cost w_time w_risk : ℚ, w_cost + w_time + w_risk ≤ 0 →
      composite_score b w_cost w_time w_risk = composite_score b 0.6 0.2 0.2) ∧
    (∀ w_cost w_time w_risk : ℚ, 0 < w_cost + w_time + w_risk →
      composite_score b w_cost w_time w_risk =
        (w_cost / (w_cost + w_time + w_risk)) * b.total_cost
          + (w_time / (w_cost + w_time + w_risk)) * b.total_time
          + (w_risk / (w_cost + w_time + w_risk)) * b.total_risk ∧
      w_cost / (w_cost + w_time + w_risk) + w_time / (w_cost + w_time + w_risk)
          + w_risk / (w_cost + w_time + w_risk) = 1) := by
  have hdefault : composite_score b 0.6 0.2 0.2 =
      0.6 * b.total_cost + 0.2 * b.total_time + 0.2 * b.total_risk := by
    simp only [composite_score]
    norm_num
  refine ⟨?_, ?_, ?_⟩
  · rw [hdefault]
    simp only [composite_score]
    norm_num
  · intro w_cost w_time w_risk h
    rw [hdefault]
    simp only [composite_score]
    rw [if_pos h, if_pos h, if_pos h]
    ring
  · intro w_cost w_time w_risk h
    have hne := not_le.mpr h
    constructor
    · simp only [composite_score]
      rw [if_neg hne, if_neg hne, if_neg hne]
      ring
    · rw [div_add_div_same, div_add_div_same, div_self h.ne']

/-- C8 witness. -/
theorem composite_score_weight_repair_witness :
    composite_score exBd 0 0 0 = composite_score exBd 0.6 0.2 0.2 ∧
    composite_score exBd (-1) 0 0 = composite_score exBd 0.6 0.2 0.2 ∧
    (composite_score exBd 1 1 2 =
      ((1 : ℚ) / (1 + 1 + 2)) * exBd.total_cost + ((1 : ℚ) / (1 + 1 + 2)) * exBd.total_time
        + ((2 : ℚ) / (1 + 1 + 2)) * exBd.total_risk ∧
      (1 : ℚ) / (1 + 1 + 2) + (1 : ℚ) / (1 + 1 + 2) + (2 : ℚ) / (1 + 1 + 2) = 1) :=
  ⟨(composite_score_weight_repair exBd).1,
   (composite_score_weight_repair exBd).2.1 (-1) 0 0 (by norm_num),
   (composite_score_weight_repair exBd).2.2 1 1 2 (by norm_num)⟩

/-- C9: `composite_score` is invariant under positive scaling of the
weight triple when the weight sum is positive. -/
theorem composite_score_scale_invariant (b : Breakdown) (w_cost w_time w_risk c : ℚ)
    (hc : 0 < c) (hw : 0 < w_cost + w_time + w_risk) :
    composite_score b (c * w_cost) (c * w_time) (c * w_risk) =
      composite_score b w_cost w_time w_risk := by
  have hsum : c * w_cost + c * w_time + c * w_risk = c * (w_cost + w_time + w_risk) := by
    ring
  have hpos : 0 < c * w_cost + c * w_time + c * w_risk := by
    rw [hsum]
    exact mul_pos hc hw
  simp only [composite_score]
  rw [if_neg (not_le.mpr hpos), if_neg (not_le.mpr hpos), if_neg (not_le.mpr hpos),
    if_neg (not_le.mpr hw), if_neg (not_le.mpr hw), if_neg (not_le.mpr hw), hsum,
    mul_div_mul_left _ _ hc.ne', mul_div_mul_left _ _ hc.ne', mul_div_mul_left _ _ hc.ne']

/-- C9 witness. -/
theorem composite_score_scale_invariant_witness :
    composite_score exBd (3 * 1) (3 * 1) (3 * 2) = composite_score exBd 1 1 2 :=
  composite_score_scale_invariant exBd 1 1 2 3 (by norm_num) (by norm_num)

theorem isFinite_mul {a b : PyFloat} (ha : a.isFinite = true) (hb : b.isFinite = true) :
    (PyFloat.mul a b).isFinite = true := by
  cases a <;> cases b <;> simp_all [PyFloat.isFinite, PyFloat.mul]

theorem isFinite_add {a b : PyFloat} (ha : a.isFinite = true) (hb : b.isFinite = true) :
    (PyFloat.add a b).isFinite = true := by
  cases a <;> cases b <;> simp_all [PyFloat.isFinite, PyFloat.add]

/-- C4 counterexample: a candidate whose weights and totals are all `+inf`
ends up with score `+inf` (and all-NaN inputs end up with score NaN) —
the NaN check `composite_numeric != composite_numeric` does not catch
infinities, and the fallback weighted sum itself can be non-finite, so
not every candidate carries a finite score. -/
theorem candidate_score_nonfinite_counterexample :
    candidate_score PyFloat.inf PyFloat.inf PyFloat.inf PyFloat.inf PyFloat.inf PyFloat.inf
        PyFloat.inf = PyFloat.inf ∧
    (candidate_score PyFloat.inf PyFloat.inf PyFloat.inf PyFloat.inf PyFloat.inf PyFloat.inf
        PyFloat.inf).isFinite = false ∧
    candidate_score PyFloat.nan PyFloat.nan PyFloat.nan PyFloat.nan PyFloat.nan PyFloat.nan
        PyFloat.nan = PyFloat.nan ∧
    (candidate_score PyFloat.nan PyFloat.nan PyFloat.nan PyFloat.nan PyFloat.nan PyFloat.nan
        PyFloat.nan).isFinite = false :=
  ⟨rfl, rfl, rfl, rfl⟩

/-- C4 amended: before ranking, every candidate's score equals the
non-normalised weighted sum `w.cost*total_cost + w.time*total_time +
w.risk*total_risk` over the original request weights — the extraction of
the composite value always falls back to this sum (the summary dictionary
carries none of the probed keys) and a NaN extraction is replaced by the
same sum; the score is finite whenever the weights and totals are finite,
but a non-finite weighted sum is not corrected. -/
theorem candidate_score_always_fallback (cs wc wt wr tc tt tr : PyFloat) :
    candidate_score cs wc wt wr tc tt tr =
      PyFloat.add (PyFloat.add (PyFloat.mul wc tc) (PyFloat.mul wt tt)) (PyFloat.mul wr tr) ∧
    ((wc.isFinite = true ∧ wt.isFinite = true ∧ wr.isFinite = true ∧ tc.isFinite = true ∧
        tt.isFinite = true ∧ tr.isFinite = true) →
      (candidate_score cs wc wt wr tc tt tr).isFinite = true) := by
  have hfb : candidate_score cs wc wt wr tc tt tr =
      PyFloat.add (PyFloat.add (PyFloat.mul wc tc) (PyFloat.mul wt tt)) (PyFloat.mul wr tr) := by
    have hex : extract_numeric_score (score_route_summary_obj tc tt tr cs)
        (PyFloat.add (PyFloat.add (PyFloat.mul wc tc) (PyFloat.mul wt tt)) (PyFloat.mul wr tr)) =
        PyFloat.add (PyFloat.add (PyFloat.mul wc tc) (PyFloat.mul wt tt)) (PyFloat.mul wr tr) :=
      rfl
    simp only [candidate_score]
    rw [hex, ite_self]
  refine ⟨hfb, ?_⟩
  rintro ⟨h1, h2, h3, h4, h5, h6⟩
  rw [hfb]
  exact isFinite_add (isFinite_add (isFinite_mul h1 h4) (isFinite_mul h2 h5))
    (isFinite_mul h3 h6)

/-- C4 amended witness. -/
theorem candidate_score_always_fallback_witness :
    candidate_score (PyFloat.fin 0) (PyFloat.fin 1) (PyFloat.fin 1) (PyFloat.fin 1)
        (PyFloat.fin 2) (PyFloat.fin 3) (PyFloat.fin 4) =
      PyFloat.add (PyFloat.add (PyFloat.mul (PyFloat.fin 1) (PyFloat.fin 2))
        (PyFloat.mul (PyFloat.fin 1) (PyFloat.fin 3))) (PyFloat.mul (PyFloat.fin 1) (PyFloat.fin 4)) ∧
    (candidate_score (PyFloat.fin 0) (PyFloat.fin 1) (PyFloat.fin 1) (PyFloat.fin 1)
        (PyFloat.fin 2) (PyFloat.fin 3) (PyFloat.fin 4)).isFinite = true :=
  ⟨(candidate_score_always_fallback (PyFloat.fin 0) (PyFloat.fin 1) (PyFloat.fin 1)
      (PyFloat.fin 1) (PyFloat.fin 2) (PyFloat.fin 3) (PyFloat.fin 4)).1,
   (candidate_score_always_fallback (PyFloat.fin 0) (PyFloat.fin 1) (PyFloat.fin 1)
      (PyFloat.fin 1) (PyFloat.fin 2) (PyFloat.fin 3) (PyFloat.fin 4)).2
     ⟨rfl, rfl, rfl, rfl, rfl, rfl⟩⟩

end Routing
